import Mathlib

/-!
Shallow embedding of the offline cache and status-resolution core of the
Apsemo disaster-management application.

The definitions below are translated from the TypeScript source:
* the status-resolution pipeline of `DashboardPage.tsx` (`fetchData`,
  `latestStatusMap`, `newStats`, `newGroups`, `newEvacGroups`,
  `occupancyMap`, `evacChartData`);
* the IndexedDB wrapper (`cacheData`, `getCachedData`, `clearCache`);
* the offline branch of `StatusUpdatePage.tsx` (`loadInitialData`) and the
  status-insert builder of `handleUpdateStatus`.

Modelling conventions: JavaScript `Map` objects become association lists in
insertion order (`Map.set` on an existing key keeps its position, a new key is
appended, matching JS iteration order); plain objects used as dictionaries are
modelled the same way; `new Date(s).getTime()` timestamps become `Nat`
(epoch milliseconds of a valid date); nullable strings become `Option String`,
with JS truthiness of a string-or-null captured by `isTruthy` (both `null` and
the empty string are falsy).
-/

namespace Apsemo

/-- The `ResidentStatus` union type (ReportsPage.tsx line 534):
`'Safe' | 'Evacuated' | 'Injured' | 'Missing' | 'Deceased' | 'Unknown'`.
The `resident_status_log` row type carries this type in its `status` column. -/
inductive StatusValue where
  | Safe
  | Evacuated
  | Injured
  | Missing
  | Deceased
  | Unknown
  deriving DecidableEq, Repr

/-- A row of `resident_status_log` as selected by the dashboard
(`resident_id, status, timestamp, evac_center_id`, plus the `event_id`
column the query filters on). `timestamp` is the parsed epoch value
`new Date(log.timestamp).getTime()`. -/
structure LogEntry where
  resident_id : String
  status : StatusValue
  event_id : String
  timestamp : Nat
  evac_center_id : Option String
  deriving DecidableEq, Repr

/-- JS truthiness of a `string | null` value: `null` and `''` are falsy. -/
def isTruthy : Option String → Bool
  | some s => !(s == "")
  | none => false

/-- The dashboard's log query (DashboardPage.tsx line 193):
`.eq('event_id', eventData.id).in('resident_id', residentIds)`. -/
def fetchLogs (log : List LogEntry) (eventId : String) (residentIds : List String) :
    List LogEntry :=
  log.filter (fun l => l.event_id == eventId && residentIds.contains l.resident_id)

/-- `Map.get` on the association-list model of a JS `Map<string, LogEntry>`. -/
def mapGet (m : List (String × LogEntry)) (k : String) : Option LogEntry :=
  (m.find? (fun p => p.1 == k)).map Prod.snd

/-- `Map.set` on the association-list model: an existing key is updated in
place, a new key is appended (JS `Map` iteration is insertion order). -/
def mapSet (m : List (String × LogEntry)) (k : String) (v : LogEntry) :
    List (String × LogEntry) :=
  if m.any (fun p => p.1 == k) then m.map (fun p => if p.1 == k then (k, v) else p)
  else m ++ [(k, v)]

/-- One iteration of the latest-wins loop (DashboardPage.tsx lines 204-209):
`if (!existing || new Date(log.timestamp).getTime() > new Date(existing.timestamp).getTime())
   latestStatusMap.set(log.resident_id, log)`. -/
def latestStep (m : List (String × LogEntry)) (l : LogEntry) :
    List (String × LogEntry) :=
  match mapGet m l.resident_id with
  | none => mapSet m l.resident_id l
  | some existing =>
      if existing.timestamp < l.timestamp then mapSet m l.resident_id l else m

/-- `latestStatusMap` (DashboardPage.tsx lines 203-209): the latest-wins
reduction of the fetched log rows, in iteration order. -/
def latestStatusMap (logs : List LogEntry) : List (String × LogEntry) :=
  logs.foldl latestStep []

/-- `latestLogs = Array.from(latestStatusMap.values())` (line 216). -/
def latestLogs (logs : List LogEntry) : List LogEntry :=
  (latestStatusMap logs).map Prod.snd

/-- The counting loop over `latestLogs` (lines 219-222): `newStats` starts at
zero for all six statuses, and `newStats[log.status]++` fires for every latest
log (the `!== undefined` guard always holds, since every `StatusValue` is a
key of the initial object). -/
def statsLoop (latest : List LogEntry) : StatusValue → Nat :=
  latest.foldl (fun f l s => if s = l.status then f s + 1 else f s) (fun _ => 0)

/-- `knownIds = new Set(latestLogs.map(l => l.resident_id))` (line 236). -/
def knownIds (logs : List LogEntry) : List String :=
  (latestLogs logs).map LogEntry.resident_id

/-- `unknownIds = residentIds.filter(id => !knownIds.has(id))` (line 237). -/
def unknownIds (residentIds : List String) (logs : List LogEntry) : List String :=
  residentIds.filter (fun id => !((knownIds logs).contains id))

/-- The final `newStats` object (lines 212-239): the loop count for the five
real statuses, then `newStats.Unknown = unknownIds.length` overwrites the
`Unknown` slot (so any `Unknown`-status log rows counted by the loop are
discarded). -/
def newStats (residentIds : List String) (logs : List LogEntry) : StatusValue → Nat :=
  fun s =>
    if s = StatusValue.Unknown then (unknownIds residentIds logs).length
    else statsLoop (latestLogs logs) s

/-- The final `newGroups` object (lines 213-240): resident ids pushed in
iteration order for each status, with `newGroups.Unknown = unknownIds`
overwriting the `Unknown` slot. -/
def newGroups (residentIds : List String) (logs : List LogEntry) :
    StatusValue → List String :=
  fun s =>
    if s = StatusValue.Unknown then unknownIds residentIds logs
    else ((latestLogs logs).filter (fun l => l.status == s)).map LogEntry.resident_id

/-- Push a resident id onto a center's list in the `newEvacGroups` object:
create the key with a singleton list if absent, else append (lines 227-232). -/
def pushGroup (m : List (String × List String)) (c : String) (rid : String) :
    List (String × List String) :=
  if m.any (fun p => p.1 == c) then
    m.map (fun p => if p.1 == c then (p.1, p.2 ++ [rid]) else p)
  else m ++ [(c, [rid])]

/-- `newEvacGroups` (lines 214-233): populated from latest logs with
`log.status === 'Evacuated' && log.evac_center_id` (JS truthiness: a `null`
or empty-string center id is skipped). -/
def newEvacGroups (logs : List LogEntry) : List (String × List String) :=
  (latestLogs logs).foldl
    (fun m l =>
      if l.status == StatusValue.Evacuated && isTruthy l.evac_center_id then
        pushGroup m (l.evac_center_id.getD "") l.resident_id
      else m)
    []

/-- Total membership over all center groups:
`sum(len(v) for v in evac_center_groups.values())`. -/
def groupSizeSum (m : List (String × List String)) : Nat :=
  (m.map (fun p => p.2.length)).sum

/-- Increment a center's tally in `occupancyMap` (lines 249-254). -/
def bumpCount (m : List (String × Nat)) (c : String) : List (String × Nat) :=
  if m.any (fun p => p.1 == c) then
    m.map (fun p => if p.1 == c then (p.1, p.2 + 1) else p)
  else m ++ [(c, 1)]

/-- `occupancyMap` (lines 249-254): per-center tallies over latest logs with
`log.status === 'Evacuated' && log.evac_center_id`. -/
def occupancyMap (logs : List LogEntry) : List (String × Nat) :=
  (latestLogs logs).foldl
    (fun m l =>
      if l.status == StatusValue.Evacuated && isTruthy l.evac_center_id then
        bumpCount m (l.evac_center_id.getD "")
      else m)
    []

/-- `occupancyMap.get(center.id) || 0` (line 259). -/
def occupancyOf (logs : List LogEntry) (c : String) : Nat :=
  (((occupancyMap logs).find? (fun p => p.1 == c)).map Prod.snd).getD 0

/-- An evacuation-center row as used by the chart query
(`select('id, name, capacity')`, line 247). -/
structure EvacuationCenter where
  id : String
  name : String
  capacity : Nat
  deriving DecidableEq, Repr

/-- One row of `evacChartData` (lines 256-261). -/
structure ChartRow where
  id : String
  name : String
  occupancy : Nat
  capacity : Nat
  deriving DecidableEq, Repr

/-- The sort key of the chart comparator (lines 264-268):
`capacity > 0 ? occupancy / capacity : 0`. -/
def chartRatio (d : ChartRow) : ℚ :=
  if d.capacity > 0 then (d.occupancy : ℚ) / (d.capacity : ℚ) else 0

/-- The unfiltered chart rows (lines 256-260): one per center, with the
occupancy looked up from `occupancyMap`. -/
def chartRows (centers : List EvacuationCenter) (logs : List LogEntry) :
    List ChartRow :=
  centers.map (fun c => ChartRow.mk c.id c.name (occupancyOf logs c.id) c.capacity)

/-- `evacChartData` (lines 256-268): filter `d.capacity > 0 || d.occupancy > 0`,
then sort by the comparator `(a, b) => pB - pA` (descending occupancy ratio;
JS `Array.prototype.sort` is stable, modelled by `mergeSort`). -/
def evacChartData (centers : List EvacuationCenter) (logs : List LogEntry) :
    List ChartRow :=
  ((chartRows centers logs).filter
      (fun d => decide (d.capacity > 0) || decide (d.occupancy > 0))).mergeSort
    (fun a b => decide (chartRatio b ≤ chartRatio a))

/-- Log rows of one entity inside one disaster event: the entries the
latest-wins rule ranges over for that entity. -/
def entityLogs (log : List LogEntry) (eventId : String) (id : String) :
    List LogEntry :=
  log.filter (fun l => l.event_id == eventId && l.resident_id == id)

/-- The resolved per-entity status: the status of the entity's entry in
`latestStatusMap` over the fetched rows, or `Unknown` when the entity has no
entry there (DashboardPage.tsx lines 201-240: entities absent from the map
form the `unknownIds` bucket). -/
def currentStatus (residentIds : List String) (log : List LogEntry)
    (eventId : String) (id : String) : StatusValue :=
  match mapGet (latestStatusMap (fetchLogs log eventId residentIds)) id with
  | some l => l.status
  | none => StatusValue.Unknown

/-- The aggregate outputs of one dashboard resolution pass. -/
structure ResolutionResult where
  stats : StatusValue → Nat
  statusGroups : StatusValue → List String
  evacCenterGroups : List (String × List String)

/-- The resolution computation of `fetchData` (lines 193-244): fetch the
scoped log rows, reduce latest-wins, then aggregate. -/
def resolve (residentIds : List String) (log : List LogEntry) (eventId : String) :
    ResolutionResult :=
  let logs := fetchLogs log eventId residentIds
  ⟨newStats residentIds logs, newGroups residentIds logs, newEvacGroups logs⟩

/-- The observable outcomes of a dashboard `fetchData` pass. `invalidScope`
renders the spec's `InvalidScope` error condition so that the error contract
can be stated; the source has no corresponding failure path (when no active
event exists, `fetchData` returns early at lines 155-159 before any log is
fetched, and resolution is never invoked). -/
inductive FetchOutcome where
  | noActiveEvent
  | invalidScope
  | ok (result : ResolutionResult)

/-- The control flow of `fetchData` (lines 151-244): abort when no active
event exists (lines 155-159); with an empty resident list return the early
all-zero stats with `Unknown := affectedCount` and `{ Unknown: [] }` groups
(lines 183-190); otherwise run the resolution pass. -/
def fetchData (activeEvent : Option String) (residentIds : List String)
    (log : List LogEntry) : FetchOutcome :=
  match activeEvent with
  | none => FetchOutcome.noActiveEvent
  | some eventId =>
      if residentIds.length = 0 then
        FetchOutcome.ok
          ⟨fun s => if s = StatusValue.Unknown then residentIds.length else 0,
           fun _ => [], []⟩
      else FetchOutcome.ok (resolve residentIds log eventId)

/-- A cached record: IndexedDB stores records keyed by `keyPath: 'id'`;
`payload` stands for all remaining fields. -/
structure CacheRecord where
  id : String
  payload : Nat
  deriving DecidableEq, Repr

/-- `store.put(item)`: insert-or-replace by the `id` key path. -/
def putRecord (store : List CacheRecord) (r : CacheRecord) : List CacheRecord :=
  if store.any (fun x => x.id == r.id) then
    store.map (fun x => if x.id == r.id then r else x)
  else store ++ [r]

/-- The three object stores managed by the offline database
(`STORES` in the IndexedDB wrapper). -/
inductive StoreName where
  | residents
  | evac_centers
  | metadata
  deriving DecidableEq, Repr

/-- The offline database state: the contents of the three object stores. -/
structure OfflineDB where
  residents : List CacheRecord
  evac_centers : List CacheRecord
  metadata : List CacheRecord
  deriving DecidableEq, Repr

/-- Contents of one named store. -/
def getStore (db : OfflineDB) : StoreName → List CacheRecord
  | StoreName.residents => db.residents
  | StoreName.evac_centers => db.evac_centers
  | StoreName.metadata => db.metadata

/-- Replace one named store's contents. -/
def setStore (db : OfflineDB) : StoreName → List CacheRecord → OfflineDB
  | StoreName.residents, s => { db with residents := s }
  | StoreName.evac_centers, s => { db with evac_centers := s }
  | StoreName.metadata, s => { db with metadata := s }

/-- `cacheData(storeName, data)` (dbService lines 187-197): one transaction
that runs `store.clear()` and then `store.put(item)` for each item. -/
def cacheData (db : OfflineDB) (storeName : StoreName) (data : List CacheRecord) :
    OfflineDB :=
  setStore db storeName (data.foldl putRecord [])

/-- `getCachedData(storeName)` (dbService lines 199-208): `store.getAll()`.
The claims about it are order-independent, so the model returns the records
as stored. -/
def getCachedData (db : OfflineDB) (storeName : StoreName) : List CacheRecord :=
  getStore db storeName

/-- `clearCache()` (dbService lines 232-242): one transaction clearing all
three managed stores. -/
def clearCache (_db : OfflineDB) : OfflineDB :=
  ⟨[], [], []⟩

/-- A resident as held by `StatusUpdatePage`; `status` is the optional
derived status field (`status?: ResidentStatus`), `none` models
`undefined`. -/
structure Resident where
  id : String
  status : Option StatusValue
  deriving DecidableEq, Repr

/-- The offline branch of `loadInitialData` (StatusUpdatePage.tsx lines
223-231): `cachedResidents.map(r => ({ ...r, status: undefined }))`. -/
def residentsWithoutStatus (cachedResidents : List Resident) : List Resident :=
  cachedResidents.map (fun r => { r with status := none })

/-- The five options of the "New Status" select (StatusUpdatePage.tsx lines
367-369); the `newStatus` state is initialised to `'Safe'` and can only be
set to one of these. -/
def statusOptions : List StatusValue :=
  [StatusValue.Safe, StatusValue.Evacuated, StatusValue.Injured,
   StatusValue.Missing, StatusValue.Deceased]

/-- An insert row for `resident_status_log`. -/
structure LogInsert where
  resident_id : String
  status : StatusValue
  event_id : String
  evac_center_id : Option String
  deriving DecidableEq, Repr

/-- The rows built by `handleUpdateStatus` (StatusUpdatePage.tsx lines
285-290; EventsPage.tsx lines 704-710 builds identical rows, and these are
the only two places that insert into `resident_status_log`):
`evac_center_id: newStatus === 'Evacuated' ? (evacCenterId || null) : null`. -/
def statusLogs (selectedIds : List String) (newStatus : StatusValue)
    (eventId : String) (evacCenterId : String) : List LogInsert :=
  selectedIds.map (fun id =>
    ⟨id, newStatus, eventId,
      if newStatus = StatusValue.Evacuated then
        (if evacCenterId == "" then none else some evacCenterId)
      else none⟩)

/-- The scalar form of one latest-wins step, restricted to a single entity:
keep the held entry unless the new one has a strictly greater timestamp. -/
def latestOf (acc : Option LogEntry) (l : LogEntry) : Option LogEntry :=
  match acc with
  | none => some l
  | some w => if w.timestamp < l.timestamp then some l else some w

/-- `w` is the first entry of `el` achieving the maximal timestamp: every
entry before it is strictly earlier, every entry after it is not later. -/
def IsFirstMax (w : LogEntry) (el : List LogEntry) : Prop :=
  ∃ el₁ el₂, el = el₁ ++ w :: el₂ ∧ (∀ x ∈ el₁, x.timestamp < w.timestamp) ∧
    (∀ x ∈ el₂, x.timestamp ≤ w.timestamp)

/-- The closed `StatusValue` enumeration as a list: the six keys of the
dashboard's stats object. -/
def statusUniverse : List StatusValue :=
  [StatusValue.Safe, StatusValue.Evacuated, StatusValue.Injured,
   StatusValue.Missing, StatusValue.Deceased, StatusValue.Unknown]

/-- `sum(counts.values())`: the total of the six per-status counters. -/
def totalCount (stats : StatusValue → Nat) : Nat :=
  (statusUniverse.map stats).sum

/-- Structural invariant of the latest-wins map over an input log list:
keys are pairwise distinct, each value's `resident_id` is its key, and each
value is an input log row. -/
def GoodMap (logs : List LogEntry) (m : List (String × LogEntry)) : Prop :=
  (m.map Prod.fst).Nodup ∧ (∀ p ∈ m, p.2.resident_id = p.1) ∧
    ∀ p ∈ m, p.2 ∈ logs

/-- The occupancy-over-capacity ratio exactly as the specification words it
(`occupancy / capacity`); in `ℚ`, division by a zero capacity yields `0`,
which coincides with the comparator's convention for zero-capacity rows. -/
def ratioSpec (d : ChartRow) : ℚ :=
  (d.occupancy : ℚ) / (d.capacity : ℚ)

/-! ### Lemmas about the JS-map model -/

theorem find?_update_self (m : List (String × LogEntry)) (k : String) (v : LogEntry) :
    ((m.map (fun p => if p.1 == k then (k, v) else p)).find? (fun p => p.1 == k)) =
      if m.any (fun p => p.1 == k) then some (k, v) else none := by
  induction m with
  | nil => rfl
  | cons p m ih =>
    by_cases hp : (p.1 == k) = true
    · rw [List.map_cons, if_pos hp]
      simp only [List.find?_cons, List.any_cons, hp, beq_self_eq_true,
        Bool.true_or, if_true]
    · have hp' : (p.1 == k) = false := Bool.not_eq_true _ ▸ hp
      rw [List.map_cons, if_neg hp]
      simp only [List.find?_cons, List.any_cons, hp', Bool.false_or, ih]

theorem find?_update_ne (m : List (String × LogEntry)) (k k' : String) (v : LogEntry)
    (h : k' ≠ k) :
    ((m.map (fun p => if p.1 == k then (k, v) else p)).find? (fun p => p.1 == k')) =
      m.find? (fun p => p.1 == k') := by
  induction m with
  | nil => rfl
  | cons p m ih =>
    by_cases hp : (p.1 == k) = true
    · have hpk : p.1 = k := by simpa using hp
      have hk : (k == k') = false := by simpa using fun e => h e.symm
      have hp2 : (p.1 == k') = false := by rw [hpk]; exact hk
      rw [List.map_cons, if_pos hp]
      simp only [List.find?_cons, hk, hp2, ih]
    · rw [List.map_cons, if_neg hp]
      rcases hq : (p.1 == k') with _ | _
      · simp only [List.find?_cons, hq, ih]
      · simp only [List.find?_cons, hq]

theorem mapGet_mapSet_self (m : List (String × LogEntry)) (k : String) (v : LogEntry) :
    mapGet (mapSet m k v) k = some v := by
  unfold mapGet mapSet
  by_cases h : (m.any (fun p => p.1 == k)) = true
  · rw [if_pos h, find?_update_self m k v, if_pos h]
    rfl
  · have h' : ∀ x ∈ m, ¬((fun p : String × LogEntry => p.1 == k) x = true) := by
      intro x hx hc
      exact h (List.any_eq_true.mpr ⟨x, hx, hc⟩)
    rw [if_neg h, List.find?_append, List.find?_eq_none.mpr h']
    simp only [List.find?_cons, beq_self_eq_true, Option.none_or]
    rfl

theorem mapGet_mapSet_ne (m : List (String × LogEntry)) (k k' : String) (v : LogEntry)
    (h : k' ≠ k) :
    mapGet (mapSet m k v) k' = mapGet m k' := by
  unfold mapGet mapSet
  by_cases hm : (m.any (fun p => p.1 == k)) = true
  · rw [if_pos hm, find?_update_ne m k k' v h]
  · have hk : (k == k') = false := by simpa using fun e => h e.symm
    rw [if_neg hm, List.find?_append]
    simp only [List.find?_cons, hk, List.find?_nil, Option.or_none]

theorem mapGet_latestStep (m : List (String × LogEntry)) (l : LogEntry) (id : String) :
    mapGet (latestStep m l) id =
      if l.resident_id == id then latestOf (mapGet m id) l else mapGet m id := by
  by_cases hid : l.resident_id = id
  · subst hid
    simp only [beq_self_eq_true, if_true]
    unfold latestStep
    cases h : mapGet m l.resident_id with
    | none => simp [h, latestOf, mapGet_mapSet_self]
    | some w =>
      by_cases ht : w.timestamp < l.timestamp
      · simp [h, ht, latestOf, mapGet_mapSet_self]
      · simp [h, ht, latestOf]
  · have hid' : (l.resident_id == id) = false := by simpa using hid
    simp only [hid', if_false]
    unfold latestStep
    cases h : mapGet m l.resident_id with
    | none => simp [mapGet_mapSet_ne m l.resident_id id l (fun e => hid e.symm)]
    | some w =>
      by_cases ht : w.timestamp < l.timestamp
      · simp [ht, mapGet_mapSet_ne m l.resident_id id l (fun e => hid e.symm)]
      · simp [ht]

theorem mapGet_foldl_latestStep (logs : List LogEntry) (m : List (String × LogEntry))
    (id : String) :
    mapGet (logs.foldl latestStep m) id =
      (logs.filter (fun l => l.resident_id == id)).foldl latestOf (mapGet m id) := by
  induction logs generalizing m with
  | nil => rfl
  | cons l logs ih =>
    simp only [List.foldl_cons, List.filter_cons]
    by_cases h : (l.resident_id == id) = true
    · simp only [h, if_true, List.foldl_cons, ih, mapGet_latestStep]
    · simp only [h, if_false, ih, mapGet_latestStep]
      simp [Bool.not_eq_true] at h
      simp [h]

theorem mapGet_latestStatusMap (logs : List LogEntry) (id : String) :
    mapGet (latestStatusMap logs) id =
      (logs.filter (fun l => l.resident_id == id)).foldl latestOf none := by
  have h : mapGet ([] : List (String × LogEntry)) id = none := rfl
  simpa [latestStatusMap, h] using mapGet_foldl_latestStep logs [] id

theorem foldl_latestOf_some (ls : List LogEntry) (w : LogEntry) :
    ∃ w', ls.foldl latestOf (some w) = some w' ∧ IsFirstMax w' (w :: ls) := by
  induction ls generalizing w with
  | nil =>
    exact ⟨w, rfl, [], [], rfl, by simp, by simp⟩
  | cons l ls ih =>
    by_cases ht : w.timestamp < l.timestamp
    · obtain ⟨w', hw', el₁, el₂, hsplit, h₁, h₂⟩ := ih l
      refine ⟨w', by simpa [latestOf, ht] using hw', w :: el₁, el₂, by simp [hsplit], ?_, h₂⟩
      intro x hx
      rcases List.mem_cons.mp hx with hx | hx
      · subst hx
        rcases el₁ with _ | ⟨y, el₁'⟩
        · have hlw : l = w' := by simpa using congrArg (fun t => t.head?) hsplit
          exact hlw ▸ ht
        · have hy : l = y := by simpa using congrArg (fun t => t.head?) hsplit
          have := h₁ y (List.mem_cons_self y el₁')
          exact lt_trans (hy ▸ ht) this
      · exact h₁ x hx
    · obtain ⟨w', hw', el₁, el₂, hsplit, h₁, h₂⟩ := ih w
      refine ⟨w', by simpa [latestOf, ht] using hw', ?_⟩
      rcases el₁ with _ | ⟨y, el₁'⟩
      · have hww : w = w' := by simpa using congrArg (fun t => t.head?) hsplit
        have htail : ls = el₂ := by simpa using congrArg (fun t => t.tail) hsplit
        refine ⟨[], l :: el₂, by simp [htail, hww], by simp, ?_⟩
        intro x hx
        rcases List.mem_cons.mp hx with hx | hx
        · subst hx; exact (hww ▸ Nat.not_lt.mp ht)
        · exact h₂ x hx
      · have hy : w = y := by simpa using congrArg (fun t => t.head?) hsplit
        have htail : ls = el₁' ++ w' :: el₂ := by
          simpa using congrArg (fun t => t.tail) hsplit
        have hwlt : w.timestamp < w'.timestamp := by
          rw [hy]; exact h₁ y (List.mem_cons_self y el₁')
        refine ⟨w :: l :: el₁', el₂, by simp [htail], ?_, h₂⟩
        intro x hx
        rcases List.mem_cons.mp hx with hx | hx
        · subst hx; exact hwlt
        · rcases List.mem_cons.mp hx with hx | hx
          · subst hx; exact lt_of_le_of_lt (Nat.not_lt.mp ht) hwlt
          · exact h₁ x (List.mem_cons_of_mem y hx)

theorem foldl_latestOf_of_ne_nil (el : List LogEntry) (h : el ≠ []) :
    ∃ w, el.foldl latestOf none = some w ∧ IsFirstMax w el := by
  cases el with
  | nil => exact absurd rfl h
  | cons l ls =>
    obtain ⟨w, hw, hmax⟩ := foldl_latestOf_some ls l
    exact ⟨w, by simpa [latestOf] using hw, hmax⟩

theorem IsFirstMax.mem {w : LogEntry} {el : List LogEntry} (h : IsFirstMax w el) :
    w ∈ el := by
  obtain ⟨el₁, el₂, hsplit, -, -⟩ := h
  simp [hsplit]

theorem IsFirstMax.le_timestamp {w : LogEntry} {el : List LogEntry}
    (h : IsFirstMax w el) : ∀ x ∈ el, x.timestamp ≤ w.timestamp := by
  obtain ⟨el₁, el₂, hsplit, h₁, h₂⟩ := h
  intro x hx
  rw [hsplit] at hx
  rcases List.mem_append.mp hx with hx | hx
  · exact Nat.le_of_lt (h₁ x hx)
  · rcases List.mem_cons.mp hx with hx | hx
    · exact hx ▸ Nat.le_refl _
    · exact h₂ x hx

/-! ### The per-entity view of the fetched log -/

theorem filter_fetchLogs_by_id (log : List LogEntry) (eid id : String)
    (residentIds : List String) (h : id ∈ residentIds) :
    (fetchLogs log eid residentIds).filter (fun l => l.resident_id == id) =
      entityLogs log eid id := by
  unfold fetchLogs entityLogs
  rw [List.filter_filter]
  apply List.filter_congr
  intro l _
  by_cases hrid : (l.resident_id == id) = true
  · have hmem : residentIds.contains l.resident_id = true := by
      have : l.resident_id = id := by simpa using hrid
      subst this
      simpa [List.contains] using List.elem_iff.mpr h
    simp only [hrid, hmem, Bool.true_and, Bool.and_true]
  · have hrid' : (l.resident_id == id) = false := Bool.not_eq_true _ ▸ hrid
    simp [hrid']

theorem fetchLogs_filter_event (log : List LogEntry) (eid : String)
    (residentIds : List String) :
    fetchLogs (log.filter (fun l => l.event_id == eid)) eid residentIds =
      fetchLogs log eid residentIds := by
  unfold fetchLogs
  rw [List.filter_filter]
  apply List.filter_congr
  intro l _
  by_cases hev : (l.event_id == eid) = true
  · simp [hev]
  · have hev' : (l.event_id == eid) = false := Bool.not_eq_true _ ▸ hev
    simp [hev']

/-- **C1.** For every entity in the input entity list, the resolved current
status is the status of one of that entity's log entries in the active event
whose timestamp is maximal among them; it is `Unknown` when the entity has no
entry in the active event; and entries of other disaster events never
influence the result (resolving over the log restricted to the active event
yields the same status). -/
theorem currentStatus_latest_wins
    (residentIds : List String) (log : List LogEntry) (eid id : String)
    (h : id ∈ residentIds) :
    (entityLogs log eid id = [] →
      currentStatus residentIds log eid id = StatusValue.Unknown) ∧
    (entityLogs log eid id ≠ [] →
      ∃ w ∈ entityLogs log eid id,
        currentStatus residentIds log eid id = w.status ∧
        ∀ l ∈ entityLogs log eid id, l.timestamp ≤ w.timestamp) ∧
    currentStatus residentIds (log.filter (fun l => l.event_id == eid)) eid id =
      currentStatus residentIds log eid id := by
  have key : mapGet (latestStatusMap (fetchLogs log eid residentIds)) id =
      (entityLogs log eid id).foldl latestOf none := by
    rw [mapGet_latestStatusMap, filter_fetchLogs_by_id log eid id residentIds h]
  refine ⟨?_, ?_, ?_⟩
  · intro he
    unfold currentStatus
    rw [key, he]
    rfl
  · intro he
    obtain ⟨w, hw, hmax⟩ := foldl_latestOf_of_ne_nil _ he
    refine ⟨w, hmax.mem, ?_, hmax.le_timestamp⟩
    unfold currentStatus
    rw [key, hw]
  · unfold currentStatus
    rw [fetchLogs_filter_event]

/-- Witness for C1 on scenario data: R3 has no entry in event E1 and resolves
to `Unknown`; R1 resolves to the status of a maximal-timestamp entry. -/
theorem currentStatus_latest_wins_witness :
    currentStatus ["R1", "R2", "R3"]
        [⟨"R1", StatusValue.Safe, "E1", 1, none⟩,
         ⟨"R1", StatusValue.Evacuated, "E1", 2, some "C1"⟩,
         ⟨"R2", StatusValue.Missing, "E1", 3, none⟩] "E1" "R3" =
      StatusValue.Unknown ∧
    (∃ w ∈ entityLogs
        [⟨"R1", StatusValue.Safe, "E1", 1, none⟩,
         ⟨"R1", StatusValue.Evacuated, "E1", 2, some "C1"⟩,
         ⟨"R2", StatusValue.Missing, "E1", 3, none⟩] "E1" "R1",
      currentStatus ["R1", "R2", "R3"]
          [⟨"R1", StatusValue.Safe, "E1", 1, none⟩,
           ⟨"R1", StatusValue.Evacuated, "E1", 2, some "C1"⟩,
           ⟨"R2", StatusValue.Missing, "E1", 3, none⟩] "E1" "R1" = w.status ∧
      ∀ l ∈ entityLogs
          [⟨"R1", StatusValue.Safe, "E1", 1, none⟩,
           ⟨"R1", StatusValue.Evacuated, "E1", 2, some "C1"⟩,
           ⟨"R2", StatusValue.Missing, "E1", 3, none⟩] "E1" "R1",
        l.timestamp ≤ w.timestamp) :=
  ⟨(currentStatus_latest_wins ["R1", "R2", "R3"]
      [⟨"R1", StatusValue.Safe, "E1", 1, none⟩,
       ⟨"R1", StatusValue.Evacuated, "E1", 2, some "C1"⟩,
       ⟨"R2", StatusValue.Missing, "E1", 3, none⟩] "E1" "R3" (by decide)).1
    (by decide),
   (currentStatus_latest_wins ["R1", "R2", "R3"]
      [⟨"R1", StatusValue.Safe, "E1", 1, none⟩,
       ⟨"R1", StatusValue.Evacuated, "E1", 2, some "C1"⟩,
       ⟨"R2", StatusValue.Missing, "E1", 3, none⟩] "E1" "R1" (by decide)).2.1
    (by decide)⟩

/-- **C10.** Ties are broken in favour of the first-iterated entry: the
reduction keeps the held entry unless a later entry's timestamp is strictly
greater, so the map's winner for an entity is the first entry (in log
iteration order) achieving the maximal timestamp among that entity's
entries. -/
theorem latestStatusMap_tie_break_first_wins :
    (∀ (m : List (String × LogEntry)) (l w : LogEntry),
        mapGet m l.resident_id = some w → l.timestamp ≤ w.timestamp →
        latestStep m l = m) ∧
    (∀ (logs : List LogEntry) (id : String),
        logs.filter (fun l => l.resident_id == id) ≠ [] →
        ∃ w, mapGet (latestStatusMap logs) id = some w ∧
          IsFirstMax w (logs.filter (fun l => l.resident_id == id))) := by
  constructor
  · intro m l w hget hle
    unfold latestStep
    rw [hget]
    simp [Nat.not_lt.mpr hle]
  · intro logs id hne
    rw [mapGet_latestStatusMap]
    exact foldl_latestOf_of_ne_nil _ hne

/-- Witness for C10: with two entries for R1 sharing timestamp 5, the
first-iterated entry (status `Safe`) wins. -/
theorem latestStatusMap_tie_break_first_wins_witness :
    latestStep [("R1", ⟨"R1", StatusValue.Safe, "E1", 5, none⟩)]
        ⟨"R1", StatusValue.Missing, "E1", 5, none⟩ =
      [("R1", ⟨"R1", StatusValue.Safe, "E1", 5, none⟩)] ∧
    (∃ w, mapGet (latestStatusMap
          [⟨"R1", StatusValue.Safe, "E1", 5, none⟩,
           ⟨"R1", StatusValue.Missing, "E1", 5, none⟩]) "R1" = some w ∧
      IsFirstMax w
        ([⟨"R1", StatusValue.Safe, "E1", 5, none⟩,
          ⟨"R1", StatusValue.Missing, "E1", 5, none⟩].filter
          (fun l => l.resident_id == "R1"))) :=
  ⟨latestStatusMap_tie_break_first_wins.1
      [("R1", ⟨"R1", StatusValue.Safe, "E1", 5, none⟩)]
      ⟨"R1", StatusValue.Missing, "E1", 5, none⟩
      ⟨"R1", StatusValue.Safe, "E1", 5, none⟩ (by decide) (by decide),
   latestStatusMap_tie_break_first_wins.2
      [⟨"R1", StatusValue.Safe, "E1", 5, none⟩,
       ⟨"R1", StatusValue.Missing, "E1", 5, none⟩] "R1" (by decide)⟩

/-! ### Structural invariants of the latest-wins map -/

theorem goodMap_mapSet {logs : List LogEntry} {m : List (String × LogEntry)}
    {l : LogEntry} (h : GoodMap logs m) (hl : l ∈ logs) :
    GoodMap logs (mapSet m l.resident_id l) := by
  obtain ⟨hnd, hkey, hmem⟩ := h
  unfold mapSet
  by_cases ha : (m.any (fun p => p.1 == l.resident_id)) = true
  · rw [if_pos ha]
    have hfix : ∀ p ∈ m,
        (Prod.fst ∘ (fun p : String × LogEntry =>
          if p.1 == l.resident_id then (l.resident_id, l) else p)) p = Prod.fst p := by
      intro p _
      by_cases hp : (p.1 == l.resident_id) = true
      · have : p.1 = l.resident_id := by simpa using hp
        simp [Function.comp, hp, this]
      · simp [Function.comp, hp]
    refine ⟨?_, ?_, ?_⟩
    · rw [List.map_map, List.map_congr_left hfix]
      exact hnd
    · intro p hp
      obtain ⟨q, hq, hqe⟩ := List.mem_map.mp hp
      by_cases hcond : (q.1 == l.resident_id) = true
      · rw [if_pos hcond] at hqe
        rw [← hqe]
      · rw [if_neg hcond] at hqe
        exact hqe ▸ hkey q hq
    · intro p hp
      obtain ⟨q, hq, hqe⟩ := List.mem_map.mp hp
      by_cases hcond : (q.1 == l.resident_id) = true
      · rw [if_pos hcond] at hqe
        rw [← hqe]
        exact hl
      · rw [if_neg hcond] at hqe
        exact hqe ▸ hmem q hq
  · rw [if_neg ha]
    have hnew : l.resident_id ∉ m.map Prod.fst := by
      intro hc
      obtain ⟨p, hp, hfst⟩ := List.mem_map.mp hc
      exact ha (List.any_eq_true.mpr ⟨p, hp, by simp [hfst]⟩)
    refine ⟨?_, ?_, ?_⟩
    · rw [List.map_append]
      rw [List.nodup_append]
      exact ⟨hnd, List.nodup_singleton _,
        fun a hak hae => hnew (by
          have : a = l.resident_id := by simpa using hae
          exact this ▸ hak)⟩
    · intro p hp
      rcases List.mem_append.mp hp with hp | hp
      · exact hkey p hp
      · have : p = (l.resident_id, l) := by simpa using hp
        rw [this]
    · intro p hp
      rcases List.mem_append.mp hp with hp | hp
      · exact hmem p hp
      · have : p = (l.resident_id, l) := by simpa using hp
        rw [this]
        exact hl

theorem goodMap_latestStep {logs : List LogEntry} {m : List (String × LogEntry)}
    {l : LogEntry} (h : GoodMap logs m) (hl : l ∈ logs) :
    GoodMap logs (latestStep m l) := by
  cases hg : mapGet m l.resident_id with
  | none =>
    have hstep : latestStep m l = mapSet m l.resident_id l := by
      unfold latestStep
      rw [hg]
    rw [hstep]
    exact goodMap_mapSet h hl
  | some w =>
    by_cases ht : w.timestamp < l.timestamp
    · have hstep : latestStep m l = mapSet m l.resident_id l := by
        unfold latestStep
        rw [hg]
        simp [ht]
      rw [hstep]
      exact goodMap_mapSet h hl
    · have hstep : latestStep m l = m := by
        unfold latestStep
        rw [hg]
        simp [ht]
      rw [hstep]
      exact h

theorem goodMap_foldl {logs : List LogEntry} (ls : List LogEntry)
    (m : List (String × LogEntry)) (h : GoodMap logs m) (hls : ∀ l ∈ ls, l ∈ logs) :
    GoodMap logs (ls.foldl latestStep m) := by
  induction ls generalizing m with
  | nil => exact h
  | cons l ls ih =>
    rw [List.foldl_cons]
    exact ih (latestStep m l)
      (goodMap_latestStep h (hls l (List.mem_cons_self l ls)))
      (fun x hx => hls x (List.mem_cons_of_mem l hx))

theorem goodMap_latestStatusMap (logs : List LogEntry) :
    GoodMap logs (latestStatusMap logs) :=
  goodMap_foldl logs [] ⟨List.nodup_nil, by simp, by simp⟩ (fun _ hl => hl)

theorem mapGet_eq_none_iff (m : List (String × LogEntry)) (id : String) :
    mapGet m id = none ↔ ∀ p ∈ m, ¬((p.1 == id) = true) := by
  simp only [mapGet, Option.map_eq_none', List.find?_eq_none]

theorem mem_keys_iff_mapGet (m : List (String × LogEntry)) (id : String) :
    id ∈ m.map Prod.fst ↔ ¬ mapGet m id = none := by
  constructor
  · intro h hnone
    obtain ⟨p, hp, hfst⟩ := List.mem_map.mp h
    have hfalse := (mapGet_eq_none_iff m id).mp hnone p hp
    rw [hfst] at hfalse
    simp at hfalse
  · intro h
    by_contra hmem
    apply h
    apply (mapGet_eq_none_iff m id).mpr
    intro p hp hbeq
    have hpid : p.1 = id := by simpa using hbeq
    exact hmem (List.mem_map.mpr ⟨p, hp, hpid⟩)

theorem knownIds_eq_keys (logs : List LogEntry) :
    knownIds logs = (latestStatusMap logs).map Prod.fst := by
  unfold knownIds latestLogs
  rw [List.map_map]
  exact List.map_congr_left (fun p hp => (goodMap_latestStatusMap logs).2.1 p hp)

theorem knownIds_nodup (logs : List LogEntry) : (knownIds logs).Nodup := by
  rw [knownIds_eq_keys]
  exact (goodMap_latestStatusMap logs).1

theorem latestLogs_mem (logs : List LogEntry) : ∀ l ∈ latestLogs logs, l ∈ logs := by
  intro l hl
  obtain ⟨p, hp, hsnd⟩ := List.mem_map.mp hl
  exact hsnd ▸ (goodMap_latestStatusMap logs).2.2 p hp

theorem knownIds_subset (log : List LogEntry) (eid : String)
    (residentIds : List String) :
    ∀ x ∈ knownIds (fetchLogs log eid residentIds), x ∈ residentIds := by
  intro x hx
  rw [knownIds_eq_keys] at hx
  obtain ⟨p, hp, hfst⟩ := List.mem_map.mp hx
  have hval := (goodMap_latestStatusMap (fetchLogs log eid residentIds)).2.2 p hp
  have hkey := (goodMap_latestStatusMap (fetchLogs log eid residentIds)).2.1 p hp
  unfold fetchLogs at hval
  have hpred := (List.mem_filter.mp hval).2
  have hcont : residentIds.contains p.2.resident_id = true :=
    (Bool.and_eq_true _ _ ▸ hpred).2
  have hmem : p.2.resident_id ∈ residentIds :=
    List.elem_iff.mp (by simpa [List.contains] using hcont)
  rw [← hfst, ← hkey]
  exact hmem

/-! ### Counting lemmas -/

theorem foldl_stats_apply (ls : List LogEntry) (f : StatusValue → Nat)
    (s : StatusValue) :
    (ls.foldl (fun f l t => if t = l.status then f t + 1 else f t) f) s =
      f s + ls.countP (fun l => l.status == s) := by
  induction ls generalizing f with
  | nil => simp
  | cons l ls ih =>
    rw [List.foldl_cons, ih, List.countP_cons]
    by_cases hs : s = l.status
    · subst hs
      simp only [if_pos rfl, beq_self_eq_true, if_true]
      omega
    · have hb : ¬((l.status == s) = true) := by simpa using fun e => hs e.symm
      simp only [if_neg hs, if_neg hb]
      omega

theorem statsLoop_eq_countP (latest : List LogEntry) (s : StatusValue) :
    statsLoop latest s = latest.countP (fun l => l.status == s) := by
  unfold statsLoop
  rw [foldl_stats_apply]
  simp

theorem countP_statuses_total (latest : List LogEntry)
    (h : ∀ l ∈ latest, l.status ≠ StatusValue.Unknown) :
    latest.countP (fun l => l.status == StatusValue.Safe) +
    latest.countP (fun l => l.status == StatusValue.Evacuated) +
    latest.countP (fun l => l.status == StatusValue.Injured) +
    latest.countP (fun l => l.status == StatusValue.Missing) +
    latest.countP (fun l => l.status == StatusValue.Deceased) =
      latest.length := by
  induction latest with
  | nil => rfl
  | cons l ls ih =>
    have hl := h l (List.mem_cons_self l ls)
    have ihs := ih (fun x hx => h x (List.mem_cons_of_mem l hx))
    simp only [List.countP_cons, List.length_cons]
    cases hst : l.status with
    | Safe => simp; omega
    | Evacuated => simp; omega
    | Injured => simp; omega
    | Missing => simp; omega
    | Deceased => simp; omega
    | Unknown => exact absurd hst hl

theorem length_filter_split (l : List String) (p : String → Bool) :
    (l.filter p).length + (l.filter (fun a => !(p a))).length = l.length := by
  induction l with
  | nil => rfl
  | cons a l ih => cases ha : p a <;> simp [List.filter_cons, ha] <;> omega

theorem length_filter_of_nodup_subset (es ks : List String) (hes : es.Nodup)
    (hks : ks.Nodup) (hsub : ∀ x ∈ ks, x ∈ es) :
    (es.filter (fun x => ks.contains x)).length = ks.length := by
  have hperm : (es.filter (fun x => ks.contains x)).Perm ks := by
    rw [List.perm_ext_iff_of_nodup (List.Nodup.filter _ hes) hks]
    intro a
    rw [List.mem_filter]
    constructor
    · rintro ⟨-, hc⟩
      exact List.elem_iff.mp (by simpa [List.contains] using hc)
    · intro ha
      exact ⟨hsub a ha, by simpa [List.contains] using List.elem_iff.mpr ha⟩
  exact hperm.length_eq

theorem foldl_latestOf_eq_none_iff (el : List LogEntry) :
    el.foldl latestOf none = none ↔ el = [] := by
  constructor
  · intro h
    by_contra hne
    obtain ⟨w, hw, -⟩ := foldl_latestOf_of_ne_nil el hne
    rw [hw] at h
    exact Option.noConfusion h
  · intro h
    rw [h]
    rfl

theorem contains_knownIds_iff (log : List LogEntry) (eid : String)
    (residentIds : List String) (id : String) (h : id ∈ residentIds) :
    (knownIds (fetchLogs log eid residentIds)).contains id =
      !(entityLogs log eid id).isEmpty := by
  have hmg : mapGet (latestStatusMap (fetchLogs log eid residentIds)) id =
      (entityLogs log eid id).foldl latestOf none := by
    rw [mapGet_latestStatusMap, filter_fetchLogs_by_id log eid id residentIds h]
  by_cases he : entityLogs log eid id = []
  · have hnone : mapGet (latestStatusMap (fetchLogs log eid residentIds)) id = none := by
      rw [hmg, he]
      rfl
    have hnotin : id ∉ knownIds (fetchLogs log eid residentIds) := by
      rw [knownIds_eq_keys]
      intro hmem
      exact (mem_keys_iff_mapGet _ _).mp hmem hnone
    have hc : ((knownIds (fetchLogs log eid residentIds)).contains id) = false := by
      cases hcc : (knownIds (fetchLogs log eid residentIds)).contains id
      · rfl
      · exact absurd (List.elem_iff.mp (by simpa [List.contains] using hcc)) hnotin
    rw [hc, he]
    rfl
  · have hsome : ¬ mapGet (latestStatusMap (fetchLogs log eid residentIds)) id = none := by
      rw [hmg]
      intro hc
      exact he ((foldl_latestOf_eq_none_iff _).mp hc)
    have hin : id ∈ knownIds (fetchLogs log eid residentIds) := by
      rw [knownIds_eq_keys]
      exact (mem_keys_iff_mapGet _ _).mpr hsome
    have hc : ((knownIds (fetchLogs log eid residentIds)).contains id) = true := by
      simpa [List.contains] using List.elem_iff.mpr hin
    have hne : (entityLogs log eid id).isEmpty = false := by
      cases hee : (entityLogs log eid id).isEmpty
      · rfl
      · exact absurd (List.isEmpty_iff.mp hee) he
    rw [hc, hne]
    rfl

/-- **C2 (amended).** For a duplicate-free entity list and a log none of whose
rows carry status `Unknown`, the per-status counts sum to the number of input
entities, and the `Unknown` count equals the number of input entities minus
the number of entities that have a log entry (hence a winning one) in the
active event. -/
theorem counts_closure
    (residentIds : List String) (log : List LogEntry) (eid : String)
    (hnd : residentIds.Nodup)
    (hu : ∀ l ∈ log, l.status ≠ StatusValue.Unknown) :
    totalCount ((resolve residentIds log eid).stats) = residentIds.length ∧
    (resolve residentIds log eid).stats StatusValue.Unknown =
      residentIds.length -
        (residentIds.filter (fun id => !(entityLogs log eid id).isEmpty)).length := by
  have hstats : (resolve residentIds log eid).stats =
      newStats residentIds (fetchLogs log eid residentIds) := rfl
  set logs := fetchLogs log eid residentIds with hlogs
  have hlatest_mem : ∀ l ∈ latestLogs logs, l ∈ log := by
    intro l hl
    have := latestLogs_mem logs l hl
    rw [hlogs] at this
    exact (List.mem_filter.mp this).1
  have hlatest_unknown : ∀ l ∈ latestLogs logs, l.status ≠ StatusValue.Unknown :=
    fun l hl => hu l (hlatest_mem l hl)
  have hk_eq : (residentIds.filter (fun id => !(entityLogs log eid id).isEmpty)) =
      (residentIds.filter (fun id => (knownIds logs).contains id)) := by
    apply List.filter_congr
    intro id hid
    rw [contains_knownIds_iff log eid residentIds id hid]
  have hk_len : (residentIds.filter (fun id => (knownIds logs).contains id)).length =
      (knownIds logs).length :=
    length_filter_of_nodup_subset residentIds (knownIds logs) hnd
      (knownIds_nodup logs) (knownIds_subset log eid residentIds)
  have hsplit : (residentIds.filter (fun id => (knownIds logs).contains id)).length +
      (unknownIds residentIds logs).length = residentIds.length := by
    have := length_filter_split residentIds (fun id => (knownIds logs).contains id)
    simpa [unknownIds] using this
  have hlen_known : (knownIds logs).length = (latestLogs logs).length := by
    unfold knownIds
    rw [List.length_map]
  constructor
  · have hsum : totalCount (newStats residentIds logs) =
        statsLoop (latestLogs logs) StatusValue.Safe +
        statsLoop (latestLogs logs) StatusValue.Evacuated +
        statsLoop (latestLogs logs) StatusValue.Injured +
        statsLoop (latestLogs logs) StatusValue.Missing +
        statsLoop (latestLogs logs) StatusValue.Deceased +
        (unknownIds residentIds logs).length := by
      simp [totalCount, statusUniverse, newStats]
      omega
    rw [hstats, hsum]
    simp only [statsLoop_eq_countP]
    have htot := countP_statuses_total (latestLogs logs) hlatest_unknown
    rw [hk_len, hlen_known] at hsplit
    omega
  · rw [hstats]
    have hUnk : newStats residentIds logs StatusValue.Unknown =
        (unknownIds residentIds logs).length := by
      simp [newStats]
    rw [hUnk, hk_eq, hk_len]
    rw [hk_len] at hsplit
    omega

/-- Witness for C2 on scenario data: three distinct entities, one of them
without any entry in the active event. -/
theorem counts_closure_witness :
    totalCount ((resolve ["R1", "R2", "R3"]
        [⟨"R1", StatusValue.Safe, "E1", 1, none⟩,
         ⟨"R1", StatusValue.Evacuated, "E1", 2, some "C1"⟩,
         ⟨"R2", StatusValue.Missing, "E1", 3, none⟩] "E1").stats) = 3 ∧
    (resolve ["R1", "R2", "R3"]
        [⟨"R1", StatusValue.Safe, "E1", 1, none⟩,
         ⟨"R1", StatusValue.Evacuated, "E1", 2, some "C1"⟩,
         ⟨"R2", StatusValue.Missing, "E1", 3, none⟩] "E1").stats StatusValue.Unknown
      = 3 - (["R1", "R2", "R3"].filter (fun id => !(entityLogs
          [⟨"R1", StatusValue.Safe, "E1", 1, none⟩,
           ⟨"R1", StatusValue.Evacuated, "E1", 2, some "C1"⟩,
           ⟨"R2", StatusValue.Missing, "E1", 3, none⟩] "E1" id).isEmpty)).length :=
  counts_closure ["R1", "R2", "R3"]
    [⟨"R1", StatusValue.Safe, "E1", 1, none⟩,
     ⟨"R1", StatusValue.Evacuated, "E1", 2, some "C1"⟩,
     ⟨"R2", StatusValue.Missing, "E1", 3, none⟩] "E1"
    (by decide) (by decide)

/-- Counterexample to C2 as stated: a log row with status `Unknown` is
counted by the loop and then erased by the `newStats.Unknown` overwrite, so
the counts sum to 0 for one entity; and a duplicated entity id makes the
counts sum to 1 for a two-element entity list. -/
theorem counts_closure_counterexample :
    totalCount ((resolve ["R1"]
        [⟨"R1", StatusValue.Unknown, "E1", 0, none⟩] "E1").stats) = 0 ∧
    (["R1"] : List String).length = 1 ∧
    totalCount ((resolve ["R1", "R1"]
        [⟨"R1", StatusValue.Safe, "E1", 0, none⟩] "E1").stats) = 1 ∧
    (["R1", "R1"] : List String).length = 2 := by
  refine ⟨by decide, rfl, by decide, rfl⟩

/-! ### The evacuation-center grouping -/

theorem pushGroup_cons_ne (p : String × List String)
    (m : List (String × List String)) (c rid : String)
    (hp : (p.1 == c) = false) :
    pushGroup (p :: m) c rid = p :: pushGroup m c rid := by
  unfold pushGroup
  rw [List.any_cons, hp, Bool.false_or]
  by_cases ha : (m.any (fun q => q.1 == c)) = true
  · rw [if_pos ha, if_pos ha, List.map_cons, if_neg (by simp [hp])]
  · rw [if_neg ha, if_neg ha, List.cons_append]

theorem groupSizeSum_cons (p : String × List String)
    (m : List (String × List String)) :
    groupSizeSum (p :: m) = p.2.length + groupSizeSum m := by
  simp [groupSizeSum]

theorem groupSizeSum_pushGroup (m : List (String × List String)) (c rid : String)
    (hnd : (m.map Prod.fst).Nodup) :
    groupSizeSum (pushGroup m c rid) = groupSizeSum m + 1 := by
  induction m with
  | nil => simp [pushGroup, groupSizeSum]
  | cons p m ih =>
    have hnd' : p.1 ∉ m.map Prod.fst ∧ (m.map Prod.fst).Nodup := by
      rw [List.map_cons, List.nodup_cons] at hnd
      exact hnd
    by_cases hp : (p.1 == c) = true
    · have hpc : p.1 = c := by simpa using hp
      have hnotin : ∀ q ∈ m, ((fun q : String × List String => q.1 == c) q) ≠ true := by
        intro q hq hqc
        have hqc' : q.1 = c := by simpa using hqc
        exact hnd'.1 (List.mem_map.mpr ⟨q, hq, by rw [hqc', hpc]⟩)
      have hany : ((p :: m).any (fun q => q.1 == c)) = true := by
        simp [List.any_cons, hp]
      unfold pushGroup
      rw [if_pos hany, List.map_cons, if_pos hp]
      have htail : m.map
          (fun q : String × List String => if q.1 == c then (q.1, q.2 ++ [rid]) else q) =
          m := by
        have hid : ∀ q ∈ m,
            (fun q : String × List String =>
              if q.1 == c then (q.1, q.2 ++ [rid]) else q) q = id q := by
          intro q hq
          show (if (q.1 == c) = true then (q.1, q.2 ++ [rid]) else q) = q
          rw [if_neg (hnotin q hq)]
        rw [List.map_congr_left hid, List.map_id]
      rw [htail, groupSizeSum_cons, groupSizeSum_cons, List.length_append]
      simp
      omega
    · have hp' : (p.1 == c) = false := Bool.not_eq_true _ ▸ hp
      rw [pushGroup_cons_ne p m c rid hp', groupSizeSum_cons, groupSizeSum_cons,
        ih hnd'.2]
      omega

theorem pushGroup_keys (m : List (String × List String)) (c rid : String) :
    (pushGroup m c rid).map Prod.fst =
      if m.any (fun q => q.1 == c) then m.map Prod.fst
      else m.map Prod.fst ++ [c] := by
  unfold pushGroup
  by_cases ha : (m.any (fun q => q.1 == c)) = true
  · rw [if_pos ha, if_pos ha, List.map_map]
    apply List.map_congr_left
    intro q _
    by_cases hq : (q.1 == c) = true
    · have hqe : q.1 = c := by simpa using hq
      simp [hqe]
    · have hqe : q.1 ≠ c := by simpa using hq
      simp [hqe]
  · rw [if_neg ha, if_neg ha, List.map_append]
    rfl

theorem pushGroup_keys_nodup (m : List (String × List String)) (c rid : String)
    (hnd : (m.map Prod.fst).Nodup) :
    ((pushGroup m c rid).map Prod.fst).Nodup := by
  rw [pushGroup_keys]
  by_cases ha : (m.any (fun q => q.1 == c)) = true
  · rw [if_pos ha]
    exact hnd
  · rw [if_neg ha, List.nodup_append]
    refine ⟨hnd, List.nodup_singleton _, ?_⟩
    intro a hak hae
    have hac : a = c := by simpa using hae
    obtain ⟨q, hq, hfst⟩ := List.mem_map.mp hak
    exact ha (List.any_eq_true.mpr ⟨q, hq, by simp [hfst, hac]⟩)

theorem evacFold_sum (ls : List LogEntry) (m : List (String × List String))
    (hnd : (m.map Prod.fst).Nodup) :
    groupSizeSum (ls.foldl
      (fun m l =>
        if l.status == StatusValue.Evacuated && isTruthy l.evac_center_id then
          pushGroup m (l.evac_center_id.getD "") l.resident_id
        else m) m) =
      groupSizeSum m +
        (ls.filter
          (fun l => l.status == StatusValue.Evacuated &&
            isTruthy l.evac_center_id)).length := by
  induction ls generalizing m with
  | nil => simp
  | cons l ls ih =>
    rw [List.foldl_cons, List.filter_cons]
    by_cases hg : (l.status == StatusValue.Evacuated && isTruthy l.evac_center_id) = true
    · rw [if_pos hg, if_pos hg,
        ih (pushGroup m (l.evac_center_id.getD "") l.resident_id)
          (pushGroup_keys_nodup m _ _ hnd),
        groupSizeSum_pushGroup m _ _ hnd, List.length_cons]
      omega
    · rw [if_neg hg, if_neg hg, ih m hnd]

/-- **C3 (amended).** The sum of the sizes of the evacuation-center membership
lists equals the number of entities whose winning log entry has status
`Evacuated` *and* carries a present (non-null, non-empty) `evac_center_id`;
the `Evacuated` count itself counts all winning `Evacuated` entries, so the
two agree exactly when every winning `Evacuated` entry names a center. -/
theorem evac_group_sizes_sum
    (residentIds : List String) (log : List LogEntry) (eid : String) :
    groupSizeSum (resolve residentIds log eid).evacCenterGroups =
      ((latestLogs (fetchLogs log eid residentIds)).filter
        (fun l => l.status == StatusValue.Evacuated &&
          isTruthy l.evac_center_id)).length ∧
    (resolve residentIds log eid).stats StatusValue.Evacuated =
      ((latestLogs (fetchLogs log eid residentIds)).filter
        (fun l => l.status == StatusValue.Evacuated)).length := by
  constructor
  · have hg : (resolve residentIds log eid).evacCenterGroups =
        newEvacGroups (fetchLogs log eid residentIds) := rfl
    rw [hg]
    unfold newEvacGroups
    have := evacFold_sum (latestLogs (fetchLogs log eid residentIds)) [] (by simp)
    simpa [groupSizeSum] using this
  · have hs : (resolve residentIds log eid).stats =
        newStats residentIds (fetchLogs log eid residentIds) := rfl
    rw [hs]
    have hne : StatusValue.Evacuated ≠ StatusValue.Unknown := by
      intro hcontra
      exact StatusValue.noConfusion hcontra
    unfold newStats
    rw [if_neg hne, statsLoop_eq_countP, List.countP_eq_length_filter]

/-- Counterexample to C3 as stated: one entity whose only (winning) entry is
`Evacuated` with a `null` evacuation-center id — it is counted in
`counts[Evacuated]` but belongs to no center group, so the group sizes sum
to 0 while the count is 1. -/
theorem evac_group_sizes_sum_counterexample :
    groupSizeSum (resolve ["R1"]
        [⟨"R1", StatusValue.Evacuated, "E1", 0, none⟩] "E1").evacCenterGroups = 0 ∧
    (resolve ["R1"]
        [⟨"R1", StatusValue.Evacuated, "E1", 0, none⟩] "E1").stats
      StatusValue.Evacuated = 1 := by
  refine ⟨by decide, by decide⟩

/-! ### The evacuation-center chart -/

theorem chartRatio_eq_ratioSpec (d : ChartRow) : chartRatio d = ratioSpec d := by
  unfold chartRatio ratioSpec
  by_cases h : d.capacity > 0
  · rw [if_pos h]
  · rw [if_neg h]
    have hz : d.capacity = 0 := Nat.eq_zero_of_not_pos h
    rw [hz]
    simp

/-- **C4.** `evacChartData` consists exactly of the chart rows that do not
have both capacity 0 and occupancy 0 (as a permutation of that filtered
list), and it is sorted in descending order of the `occupancy / capacity`
ratio — where the ratio of a zero-capacity row is taken as 0, the convention
of both the source comparator and rational division by zero. -/
theorem evacChartData_filter_sorted
    (centers : List EvacuationCenter) (logs : List LogEntry) :
    (evacChartData centers logs).Perm
      ((chartRows centers logs).filter
        (fun d => !(decide (d.capacity = 0) && decide (d.occupancy = 0)))) ∧
    (evacChartData centers logs).Sorted (fun a b => ratioSpec b ≤ ratioSpec a) := by
  constructor
  · have hperm := List.mergeSort_perm
      ((chartRows centers logs).filter
        (fun d => decide (d.capacity > 0) || decide (d.occupancy > 0)))
      (fun a b => decide (chartRatio b ≤ chartRatio a))
    refine hperm.trans ?_
    have hfe : (chartRows centers logs).filter
        (fun d => decide (d.capacity > 0) || decide (d.occupancy > 0)) =
        (chartRows centers logs).filter
          (fun d => !(decide (d.capacity = 0) && decide (d.occupancy = 0))) := by
      apply List.filter_congr
      intro d _
      by_cases h1 : d.capacity = 0 <;> by_cases h2 : d.occupancy = 0 <;>
        simp [h1, h2, Nat.pos_of_ne_zero]
    rw [hfe]
  · have htrans : ∀ a b c : ChartRow,
        (decide (chartRatio b ≤ chartRatio a)) = true →
        (decide (chartRatio c ≤ chartRatio b)) = true →
        (decide (chartRatio c ≤ chartRatio a)) = true := by
      intro a b c hab hbc
      rw [decide_eq_true_eq] at *
      exact le_trans hbc hab
    have htotal : ∀ a b : ChartRow,
        ((decide (chartRatio b ≤ chartRatio a)) ||
          (decide (chartRatio a ≤ chartRatio b))) = true := by
      intro a b
      rcases le_total (chartRatio b) (chartRatio a) with h | h
      · simp [h]
      · simp [h]
    have hsorted := @List.sorted_mergeSort ChartRow
      (fun a b => decide (chartRatio b ≤ chartRatio a)) htrans htotal
      ((chartRows centers logs).filter
        (fun d => decide (d.capacity > 0) || decide (d.occupancy > 0)))
    unfold List.Sorted
    apply List.Pairwise.imp ?_ hsorted
    intro a b hab
    rw [decide_eq_true_eq] at hab
    rw [← chartRatio_eq_ratioSpec, ← chartRatio_eq_ratioSpec]
    exact hab

/-! ### The offline cache -/

theorem foldl_putRecord_nodup (data : List CacheRecord) (s : List CacheRecord)
    (h : ((s ++ data).map CacheRecord.id).Nodup) :
    data.foldl putRecord s = s ++ data := by
  induction data generalizing s with
  | nil => simp
  | cons d data ih =>
    have h' := h
    rw [List.map_append, List.nodup_append] at h'
    have hd : ¬(s.any (fun x => x.id == d.id)) = true := by
      intro hc
      obtain ⟨x, hx, hxe⟩ := List.any_eq_true.mp hc
      have hxid : x.id = d.id := by simpa using hxe
      have hxin : x.id ∈ s.map CacheRecord.id := List.mem_map.mpr ⟨x, hx, rfl⟩
      have hdin : x.id ∈ (d :: data).map CacheRecord.id := by
        rw [List.map_cons, hxid]
        exact List.mem_cons_self _ _
      exact h'.2.2 hxin hdin
    have hput : putRecord s d = s ++ [d] := by
      unfold putRecord
      rw [if_neg hd]
    rw [List.foldl_cons, hput]
    have hrec := ih (s ++ [d]) (by simpa using h)
    rw [hrec]
    simp

/-- **C5 (amended).** For records with pairwise-distinct ids (the store is
keyed by the `id` key path; a later record with a repeated id replaces the
earlier one), `cacheData` followed by `getCachedData` on the same store
returns exactly the records that were put (stated order-independently, as a
membership equivalence); and after `clearCache`, `getCachedData` returns the
empty list for every managed store. -/
theorem cache_round_trip (db : OfflineDB) (storeName : StoreName)
    (data : List CacheRecord) (h : (data.map CacheRecord.id).Nodup) :
    (∀ r : CacheRecord,
      r ∈ getCachedData (cacheData db storeName data) storeName ↔ r ∈ data) ∧
    ∀ (db' : OfflineDB) (name : StoreName),
      getCachedData (clearCache db') name = [] := by
  constructor
  · intro r
    have hfold : data.foldl putRecord [] = data := by
      have := foldl_putRecord_nodup data [] (by simpa using h)
      simpa using this
    have hget : getCachedData (cacheData db storeName data) storeName =
        data.foldl putRecord [] := by
      cases storeName <;> rfl
    rw [hget, hfold]
  · intro db' name
    cases name <;> rfl

/-- Witness for C5: a two-record put round-trips, and a cleared store reads
back empty. -/
theorem cache_round_trip_witness :
    ((⟨"a", 1⟩ : CacheRecord) ∈
        getCachedData (cacheData ⟨[], [], []⟩ StoreName.residents
          [⟨"a", 1⟩, ⟨"b", 2⟩]) StoreName.residents ↔
      (⟨"a", 1⟩ : CacheRecord) ∈ ([⟨"a", 1⟩, ⟨"b", 2⟩] : List CacheRecord)) ∧
    getCachedData (clearCache ⟨[⟨"a", 1⟩], [], []⟩) StoreName.residents = [] :=
  ⟨(cache_round_trip ⟨[], [], []⟩ StoreName.residents [⟨"a", 1⟩, ⟨"b", 2⟩]
      (by decide)).1 ⟨"a", 1⟩,
   (cache_round_trip ⟨[], [], []⟩ StoreName.residents [⟨"a", 1⟩, ⟨"b", 2⟩]
      (by decide)).2 ⟨[⟨"a", 1⟩], [], []⟩ StoreName.residents⟩

/-- Counterexample to C5 as stated: putting two records that share the id
`"a"` keeps only the later one (keyed `put` replaces), so the read-back set
is not equal to the set of records that were put. -/
theorem cache_round_trip_counterexample :
    (⟨"a", 1⟩ : CacheRecord) ∈ ([⟨"a", 1⟩, ⟨"a", 2⟩] : List CacheRecord) ∧
    (⟨"a", 1⟩ : CacheRecord) ∉
      getCachedData (cacheData ⟨[], [], []⟩ StoreName.residents
        [⟨"a", 1⟩, ⟨"a", 2⟩]) StoreName.residents := by
  refine ⟨by decide, by decide⟩

/-- **C6 (amended).** For every store and record lists `A` and `B` where
`B`'s records have pairwise-distinct ids, `cacheData(name, A)` followed by
`cacheData(name, B)` leaves exactly the records of `B` (membership
equivalence): the clear-then-put replace keeps no residual record of `A`. -/
theorem cache_replace_not_merge (db : OfflineDB) (storeName : StoreName)
    (A B : List CacheRecord) (h : (B.map CacheRecord.id).Nodup) :
    ∀ r : CacheRecord,
      r ∈ getCachedData (cacheData (cacheData db storeName A) storeName B)
          storeName ↔ r ∈ B := by
  intro r
  have hfold : B.foldl putRecord [] = B := by
    have := foldl_putRecord_nodup B [] (by simpa using h)
    simpa using this
  have hget : getCachedData (cacheData (cacheData db storeName A) storeName B)
      storeName = B.foldl putRecord [] := by
    cases storeName <;> rfl
  rw [hget, hfold]

/-- Witness for C6: after caching `A` then `B`, the old record of `A` is
gone and exactly `B`'s record is readable. -/
theorem cache_replace_not_merge_witness :
    ((⟨"x", 9⟩ : CacheRecord) ∈
        getCachedData (cacheData (cacheData ⟨[], [], []⟩ StoreName.residents
          [⟨"x", 9⟩]) StoreName.residents [⟨"b", 1⟩]) StoreName.residents ↔
      (⟨"x", 9⟩ : CacheRecord) ∈ ([⟨"b", 1⟩] : List CacheRecord)) :=
  cache_replace_not_merge ⟨[], [], []⟩ StoreName.residents [⟨"x", 9⟩]
    [⟨"b", 1⟩] (by decide) ⟨"x", 9⟩

/-- Counterexample to C6 as stated: when `B` itself repeats an id, the
replaced store does not equal `B` as a set — the earlier of the two
same-id records of `B` is lost. -/
theorem cache_replace_not_merge_counterexample :
    (⟨"b", 1⟩ : CacheRecord) ∈ ([⟨"b", 1⟩, ⟨"b", 2⟩] : List CacheRecord) ∧
    (⟨"b", 1⟩ : CacheRecord) ∉
      getCachedData (cacheData (cacheData ⟨[], [], []⟩ StoreName.residents
        [⟨"a", 1⟩]) StoreName.residents [⟨"b", 1⟩, ⟨"b", 2⟩])
        StoreName.residents := by
  refine ⟨by decide, by decide⟩

/-! ### Offline degradation and the insert builder -/

/-- **C7.** Offline, every resident loaded from the cache has its status
forced to `undefined` (`none`): no cached status survives, the number of
statusless residents equals the number of loaded residents, and every real
status has count zero. -/
theorem offline_statuses_unknown (cachedResidents : List Resident) :
    (∀ r ∈ residentsWithoutStatus cachedResidents, r.status = none) ∧
    (residentsWithoutStatus cachedResidents).countP
        (fun r => r.status == none) = cachedResidents.length ∧
    ∀ s : StatusValue,
      (residentsWithoutStatus cachedResidents).countP
        (fun r => r.status == some s) = 0 := by
  refine ⟨?_, ?_, ?_⟩
  · intro r hr
    obtain ⟨q, hq, hqe⟩ := List.mem_map.mp hr
    rw [← hqe]
  · unfold residentsWithoutStatus
    rw [List.countP_map]
    simp [Function.comp]
  · intro s
    unfold residentsWithoutStatus
    rw [List.countP_map]
    simp [Function.comp]

/-- Witness for C7 at a concrete cached list carrying a stale status. -/
theorem offline_statuses_unknown_witness :
    (∀ r ∈ residentsWithoutStatus
        [⟨"R1", some StatusValue.Safe⟩, ⟨"R2", none⟩], r.status = none) ∧
    (residentsWithoutStatus [⟨"R1", some StatusValue.Safe⟩, ⟨"R2", none⟩]).countP
        (fun r => r.status == none) = 2 ∧
    ∀ s : StatusValue,
      (residentsWithoutStatus
        [⟨"R1", some StatusValue.Safe⟩, ⟨"R2", none⟩]).countP
        (fun r => r.status == some s) = 0 :=
  offline_statuses_unknown [⟨"R1", some StatusValue.Safe⟩, ⟨"R2", none⟩]

/-- **C9.** Every log row built by the status-update submit has a status in
the five selectable values and is never `Unknown`: the status written is the
`newStatus` state, which is initialised to `Safe` and can only be set from
the five options of the "New Status" select. -/
theorem status_log_insert_values (selectedIds : List String)
    (newStatus : StatusValue) (eventId evacCenterId : String)
    (h : newStatus ∈ statusOptions) :
    ∀ e ∈ statusLogs selectedIds newStatus eventId evacCenterId,
      e.status ∈ statusOptions ∧ e.status ≠ StatusValue.Unknown := by
  intro e he
  obtain ⟨id, hid, hee⟩ := List.mem_map.mp he
  have hst : e.status = newStatus := by rw [← hee]
  rw [hst]
  refine ⟨h, ?_⟩
  intro hu
  rw [hu] at h
  exact absurd h (by decide)

/-- Witness for C9 with a selected family and the `Evacuated` option. -/
theorem status_log_insert_values_witness :
    StatusValue.Evacuated ∈ statusOptions ∧
    ∀ e ∈ statusLogs ["R1", "R2"] StatusValue.Evacuated "E1" "C1",
      e.status ∈ statusOptions ∧ e.status ≠ StatusValue.Unknown :=
  ⟨by decide,
   status_log_insert_values ["R1", "R2"] StatusValue.Evacuated "E1" "C1"
     (by decide)⟩

/-! ### The fetchData control flow -/

/-- **C8 (amended).** The dashboard's resolution never fails with
`InvalidScope` (or at all): when no active event exists, `fetchData` aborts
with the no-active-event early return before any log is fetched, and with an
active event it always produces a result. The degenerate inputs behave as
the spec describes: an empty entity list yields all-zero counts (and,
vacuously, every entity `Unknown`), and an empty log resolves every entity
to `Unknown`, with the `Unknown` count equal to the number of entities and
all other counts zero. -/
theorem fetchData_never_invalidScope :
    (∀ (activeEvent : Option String) (residentIds : List String)
        (log : List LogEntry),
      fetchData activeEvent residentIds log ≠ FetchOutcome.invalidScope) ∧
    (∀ (residentIds : List String) (log : List LogEntry),
      fetchData none residentIds log = FetchOutcome.noActiveEvent) ∧
    (∀ (eid : String) (residentIds : List String) (log : List LogEntry),
      ∃ r, fetchData (some eid) residentIds log = FetchOutcome.ok r) ∧
    (∀ (eid : String) (log : List LogEntry),
      (resolve [] log eid).stats = fun _ => 0) ∧
    (∀ (eid : String) (residentIds : List String),
      (resolve residentIds [] eid).stats =
        fun s => if s = StatusValue.Unknown then residentIds.length else 0) ∧
    (∀ (eid : String) (residentIds : List String) (id : String),
      currentStatus residentIds [] eid id = StatusValue.Unknown) := by
  have hempty : ∀ (log : List LogEntry) (eid : String),
      fetchLogs log eid [] = [] := by
    intro log eid
    unfold fetchLogs
    apply List.filter_eq_nil.mpr
    intro l _
    simp [List.contains]
  refine ⟨?_, ?_, ?_, ?_, ?_, ?_⟩
  · intro e? rs log
    cases e? with
    | none =>
      intro hc
      exact FetchOutcome.noConfusion hc
    | some e =>
      have hfd : fetchData (some e) rs log =
          if rs.length = 0 then
            FetchOutcome.ok
              ⟨fun s => if s = StatusValue.Unknown then rs.length else 0,
               fun _ => [], []⟩
          else FetchOutcome.ok (resolve rs log e) := rfl
      rw [hfd]
      by_cases h : rs.length = 0
      · rw [if_pos h]
        intro hc
        exact FetchOutcome.noConfusion hc
      · rw [if_neg h]
        intro hc
        exact FetchOutcome.noConfusion hc
  · intro rs log
    rfl
  · intro e rs log
    have hfd : fetchData (some e) rs log =
        if rs.length = 0 then
          FetchOutcome.ok
            ⟨fun s => if s = StatusValue.Unknown then rs.length else 0,
             fun _ => [], []⟩
        else FetchOutcome.ok (resolve rs log e) := rfl
    rw [hfd]
    by_cases h : rs.length = 0
    · rw [if_pos h]
      exact ⟨_, rfl⟩
    · rw [if_neg h]
      exact ⟨_, rfl⟩
  · intro eid log
    funext s
    show newStats [] (fetchLogs log eid []) s = 0
    rw [hempty log eid]
    by_cases hs : s = StatusValue.Unknown
    · simp [newStats, hs, unknownIds]
    · simp [newStats, hs, statsLoop, latestLogs, latestStatusMap]
  · intro eid rs
    funext s
    show newStats rs (fetchLogs [] eid rs) s =
      if s = StatusValue.Unknown then rs.length else 0
    by_cases hs : s = StatusValue.Unknown
    · rw [if_pos hs]
      simp [newStats, hs, unknownIds, knownIds, latestLogs, latestStatusMap,
        fetchLogs, List.contains]
    · rw [if_neg hs]
      simp [newStats, hs, statsLoop, latestLogs, latestStatusMap, fetchLogs]
  · intro eid rs id
    rfl

/-- Counterexample to C8 as stated: with a null active event and a nonempty
log, the operation returns the no-active-event abort — resolution is never
invoked and no `InvalidScope` failure occurs, contradicting the claim's
"fails with `InvalidScope` if" direction. -/
theorem fetchData_never_invalidScope_counterexample :
    fetchData none ["R1"] [⟨"R1", StatusValue.Safe, "E1", 0, none⟩] =
      FetchOutcome.noActiveEvent ∧
    FetchOutcome.noActiveEvent ≠ FetchOutcome.invalidScope ∧
    ([⟨"R1", StatusValue.Safe, "E1", 0, none⟩] : List LogEntry) ≠ [] := by
  refine ⟨rfl, ?_, ?_⟩
  · intro hc
    exact FetchOutcome.noConfusion hc
  · intro hc
    exact List.noConfusion hc

end Apsemo
